import Mathlib

/-!
Shallow embedding of `bin_dec_converter.py` (Advanced Number Base Converter).

Modelling conventions, chosen once and used throughout:

* Python's arbitrary-precision `int` is `Int`; nonnegative working values inside
  digit loops are `Nat`.
* Python strings are Lean `String`s (digit strings are pure ASCII).  String
  functions work on `String.data` lists; `s.startswith('-')` is
  `s.data.head? = some '-'`.
* A `while working_n:` loop is embedded as structural recursion on an explicit
  fuel argument; the wrappers pass the initial working value itself as fuel,
  which is enough because the working value strictly decreases (division by a
  base ≥ 2).  When the fuel pattern would not apply (base < 2) the loop returns
  its accumulator; that case is unreachable because every caller validates the
  base first.
* A `raise ValueError(msg)` is `Except.error msg`; a normal return is
  `Except.ok`.
* Python floats are modelled as exact rationals `ℚ`.  Inside
  `dec_to_base_float` the working fraction always has the fixed denominator
  `den` of the (absolute value of the) input, so the loop state is just the
  integer numerator; `int(f)` (truncation toward zero) is `Int.tdiv` of
  numerator by denominator.
* Python `str` values fed to the character converters may contain lone
  surrogates, which Lean's `Char` cannot represent, so for `char_to_ascii` /
  `ascii_to_char` a Python string is modelled as its list of code points
  (`List Nat`); `ord` of a one-character string is that single code point and
  `chr cp` succeeds for every `cp` in [0, 1114111].
* `show_steps=True` and `show_steps=False` paths of a function are embedded as
  two definitions (`f_steps` and `f`); they share the digit loops, and the
  plain variant simply discards the row strings.  `f"{v:w}"` on an integer is
  right-justification `padL`, on a string left-justification `padR`.
-/

/-- Decidable equality for `Except`, so concrete runs of the converters can be
checked by `decide`. -/
instance {ε α : Type} [DecidableEq ε] [DecidableEq α] : DecidableEq (Except ε α) := fun x y =>
  match x, y with
  | .error a, .error b =>
    if h : a = b then .isTrue (congrArg Except.error h)
    else .isFalse (fun hh => h (Except.error.inj hh))
  | .error _, .ok _ => .isFalse (fun hh => Except.noConfusion hh)
  | .ok _, .error _ => .isFalse (fun hh => Except.noConfusion hh)
  | .ok a, .ok b =>
    if h : a = b then .isTrue (congrArg Except.ok h)
    else .isFalse (fun hh => h (Except.ok.inj hh))

/-- Right-justify a string in a field of width `w` (Python `f"{n:w}"` for numbers). -/
def padL (w : Nat) (s : String) : String :=
  String.mk (List.replicate (w - s.length) ' ') ++ s

/-- Left-justify a string in a field of width `w` (Python `f"{s:w}"` for strings). -/
def padR (w : Nat) (s : String) : String :=
  s ++ String.mk (List.replicate (w - s.length) ' ')

/-- `HEX_DIGITS = "0123456789ABCDEF"` from the source. -/
def HEX_DIGITS : String := "0123456789ABCDEF"

/-- `BASE_DIGITS = "0123456789ABCDEF"` from the source. -/
def BASE_DIGITS : String := "0123456789ABCDEF"

/-- List-of-characters view of `BASE_DIGITS`. -/
def baseDigits : List Char := BASE_DIGITS.data

/-- `BASE_DIGITS[r]`.  The default is never reached: every caller indexes with a
value `< 16`. -/
def digitChar (r : Nat) : Char := baseDigits.getD r 'X'

/-- `BASE_DIGITS.index(c)` (Python raises if absent; validation guarantees the
character is present, so the out-of-range result `16` is unreachable). -/
def digitIndex (c : Char) : Nat := baseDigits.indexOf c

/-- `HEX_DIGITS[r]`, used by `dec_to_hex`. -/
def hexChar (r : Nat) : Char := HEX_DIGITS.data.getD r 'X'

/-- `HEX_DIGITS.index(c)`, used by `hex_to_dec`. -/
def hexIndex (c : Char) : Nat := HEX_DIGITS.data.indexOf c

/-- `str(r)` for a one-digit number `r ≤ 9`, used by `dec_to_bin`/`dec_to_oct`. -/
def decChar (r : Nat) : Char := Char.ofNat (48 + r)

/-- `int(c)` for a single digit character (code point minus 48), used by
`bin_to_dec`/`oct_to_dec`. -/
def digitToInt (c : Char) : Int := (c.toNat : Int) - 48

/-- `decimal_value += digit_value * base ** i` accumulated over
`enumerate(reversed(digit list))`, starting at position `i`; `val` is how a
digit character is turned into its numeric value (`BASE_DIGITS.index`,
`int(c)`, or `HEX_DIGITS.index` depending on the caller). -/
def positionalSum (val : Char → Int) (b : Int) : List Char → Nat → Int
  | [], _ => 0
  | c :: cs, i => val c * b ^ i + positionalSum val b cs (i + 1)

/-- The `while working_n:` loop of `dec_to_base` (with `show_steps=True`
bookkeeping): returns the little-endian digit characters together with the
per-digit trace rows `f"{step_num:4} | {working_n:7} | {base:15} | {remainder:9} | {digit}"`. -/
def convLoop (bn : Nat) : Nat → Nat → Nat → List Char × List String
  | 0, _, _ => ([], [])
  | fuel + 1, working_n, step_num =>
    if working_n = 0 then ([], [])
    else
      let remainder := working_n % bn
      let digit := digitChar remainder
      let row := padL 4 (toString step_num) ++ " | " ++ padL 7 (toString working_n) ++
        " | " ++ padL 15 (toString bn) ++ " | " ++ padL 9 (toString remainder) ++
        " | " ++ toString digit
      let rest := convLoop bn fuel (working_n / bn) (step_num + 1)
      (digit :: rest.1, row :: rest.2)

/-- `dec_to_base(n, base)` with `show_steps=False`.  Note the source checks
`n == 0` before validating the base. -/
def dec_to_base (n : Int) (base : Int) : Except String String :=
  if n = 0 then .ok "0"
  else if ¬(2 ≤ base ∧ base ≤ 16) then .error "Base must be between 2 and 16"
  else
    let is_negative := n < 0
    let m := n.natAbs
    let result := String.mk ((convLoop base.toNat m m 1).1).reverse
    .ok (if is_negative then "-" ++ result else result)

/-- `dec_to_base(n, base, show_steps=True)`: returns the result together with
the `steps` list exactly as the source builds it. -/
def dec_to_base_steps (n : Int) (base : Int) : Except String (String × List String) :=
  if n = 0 then .ok ("0", [s!"0 in decimal is 0 in base {base}"])
  else if ¬(2 ≤ base ∧ base ≤ 16) then .error "Base must be between 2 and 16"
  else
    let is_negative := n < 0
    let m := n.natAbs
    let negSteps := if is_negative then
        [s!"Converting negative number: {n}", s!"Taking absolute value: {m}"]
      else []
    let header := [s!"Starting decimal to base {base} conversion of {m}:",
      "Step | Decimal | Divided by Base | Remainder | Digit",
      "---- | ------- | --------------- | --------- | -----"]
    let loopOut := convLoop base.toNat m m 1
    let result := String.mk loopOut.1.reverse
    let final_result := if is_negative then "-" ++ result else result
    let trailer := [s!"Reading remainders from bottom to top: {result}"] ++
      (if is_negative then [s!"Adding negative sign: {final_result}"] else []) ++
      [s!"Final result: {n} in decimal = {final_result} in base {base}"]
    .ok (final_result, negSteps ++ header ++ loopOut.2 ++ trailer)

/-- Sign-stripped body of a numeral: `number_str[1:]` when it starts with `'-'`,
else the whole string. -/
def pyBody (l : List Char) : List Char :=
  if l.head? = some '-' then l.tail else l

/-- `base_to_dec(number_str, base)` with `show_steps=False`.  The regex
`[{valid_chars}]+` on the upper-cased body is: nonempty, and every character a
member of `BASE_DIGITS[:base]`. -/
def base_to_dec (number_str : String) (base : Int) : Except String Int :=
  if ¬(2 ≤ base ∧ base ≤ 16) then .error "Base must be between 2 and 16"
  else
    let is_negative := number_str.data.head? = some '-'
    let body := pyBody number_str.data
    let up := body.map Char.toUpper
    if up ≠ [] ∧ up.all (fun c => List.elem c (baseDigits.take base.toNat)) then
      let decimal_value := positionalSum (fun c => (digitIndex c : Int)) base up.reverse 0
      .ok (if is_negative then -decimal_value else decimal_value)
    else .error s!"Invalid number for base {base}"

/-- Per-digit trace rows of `base_to_dec(show_steps=True)`:
`f"{i:8} | {digit:5} | {digit_value:11} | {position_value:38}"` over
`enumerate(reversed(number_str.upper()))`. -/
def bdRows (base : Int) : List Char → Nat → List String
  | [], _ => []
  | c :: cs, i =>
    let digit_value := digitIndex c
    let position_value := (digit_value : Int) * base ^ i
    (padL 8 (toString i) ++ " | " ++ padR 5 (toString c) ++ " | " ++
      padL 11 (toString digit_value) ++ " | " ++ padL 38 (toString position_value)) ::
      bdRows base cs (i + 1)

/-- `base_to_dec(number_str, base, show_steps=True)`. -/
def base_to_dec_steps (number_str : String) (base : Int) :
    Except String (Int × List String) :=
  if ¬(2 ≤ base ∧ base ≤ 16) then .error "Base must be between 2 and 16"
  else
    let is_negative := number_str.data.head? = some '-'
    let body := pyBody number_str.data
    let bodyStr := String.mk body
    let negSteps := if is_negative then
        [s!"Converting negative number: {number_str}",
          s!"Removing negative sign for conversion: {bodyStr}"]
      else []
    let up := body.map Char.toUpper
    if up ≠ [] ∧ up.all (fun c => List.elem c (baseDigits.take base.toNat)) then
      let header := [s!"Starting base {base} to decimal conversion of {bodyStr}:",
        s!"Position | Digit | Digit Value | Value = Digit Value × {base}^Position",
        "-------- | ----- | ----------- | -----------------------------------------"]
      let rows := bdRows base up.reverse 0
      let decimal_value := positionalSum (fun c => (digitIndex c : Int)) base up.reverse 0
      let final_value := if is_negative then -decimal_value else decimal_value
      let trailer := (if is_negative then [s!"Applying negative sign: {final_value}"] else []) ++
        [s!"Final result: {number_str} in base {base} = {final_value} in decimal"]
      .ok (final_value, negSteps ++ header ++ rows ++ trailer)
    else .error s!"Invalid number for base {base}"

/-- Python `n.bit_length()` of a nonnegative `n`, as a fueled loop
(number of divisions by 2 until 0). -/
def bitLenLoop : Nat → Nat → Nat
  | 0, _ => 0
  | fuel + 1, m => if m = 0 then 0 else bitLenLoop fuel (m / 2) + 1

/-- Python `n.bit_length()` (which ignores the sign of `n`). -/
def pyBitLength (n : Int) : Nat := bitLenLoop n.natAbs n.natAbs

/-- The `while working_n:` loop of `dec_to_bin`: collects `str(working_n & 1)`
while shifting right (`>>= 1`). -/
def binLoop : Nat → Nat → List Char
  | 0, _ => []
  | fuel + 1, working_n =>
    if working_n = 0 then []
    else decChar (working_n &&& 1) :: binLoop fuel (working_n >>> 1)

/-- `dec_to_bin(n)`.  For negative `n` the source computes the two's-complement
value `(1 << (n.bit_length() + 1)) + n` (modelled as `2 ^ (...) + n`), emits its
binary digits, and still prepends a `'-'`. -/
def dec_to_bin (n : Int) : String :=
  if n = 0 then "0"
  else
    let is_negative := n < 0
    let m : Nat := if is_negative then ((2 ^ (pyBitLength n + 1) : Int) + n).toNat
      else n.natAbs
    let result := String.mk (binLoop m m).reverse
    if is_negative then "-" ++ result else result

/-- The `while working_n:` loop of `dec_to_oct`: collects `str(working_n & 7)`
while shifting right by 3. -/
def octLoop : Nat → Nat → List Char
  | 0, _ => []
  | fuel + 1, working_n =>
    if working_n = 0 then []
    else decChar (working_n &&& 7) :: octLoop fuel (working_n >>> 3)

/-- `dec_to_oct(n)`: sign-magnitude, digits by `& 7` / `>> 3`. -/
def dec_to_oct (n : Int) : String :=
  if n = 0 then "0"
  else
    let is_negative := n < 0
    let m := n.natAbs
    let result := String.mk (octLoop m m).reverse
    if is_negative then "-" ++ result else result

/-- The `while working_n:` loop of `dec_to_hex`: collects
`HEX_DIGITS[working_n & 15]` while shifting right by 4. -/
def hexLoop : Nat → Nat → List Char
  | 0, _ => []
  | fuel + 1, working_n =>
    if working_n = 0 then []
    else hexChar (working_n &&& 15) :: hexLoop fuel (working_n >>> 4)

/-- `dec_to_hex(n)`: sign-magnitude, digits by `& 15` / `>> 4`. -/
def dec_to_hex (n : Int) : String :=
  if n = 0 then "0"
  else
    let is_negative := n < 0
    let m := n.natAbs
    let result := String.mk (hexLoop m m).reverse
    if is_negative then "-" ++ result else result

/-- `bin_to_dec(bstr)`: validate `[01]+` after optional sign, then sum
`int(digit) * 2 ** i` over the reversed string. -/
def bin_to_dec (bstr : String) : Except String Int :=
  let is_negative := bstr.data.head? = some '-'
  let body := pyBody bstr.data
  if body ≠ [] ∧ body.all (fun c => c == '0' || c == '1') then
    let decimal_value := positionalSum digitToInt 2 body.reverse 0
    .ok (if is_negative then -decimal_value else decimal_value)
  else .error "Invalid binary number"

/-- `oct_to_dec(ostr)`: validate `[0-7]+` after optional sign, then sum
`int(digit) * 8 ** i` over the reversed string. -/
def oct_to_dec (ostr : String) : Except String Int :=
  let is_negative := ostr.data.head? = some '-'
  let body := pyBody ostr.data
  if body ≠ [] ∧ body.all (fun c => '0' ≤ c && c ≤ '7') then
    let decimal_value := positionalSum digitToInt 8 body.reverse 0
    .ok (if is_negative then -decimal_value else decimal_value)
  else .error "Invalid octal number"

/-- `hex_to_dec(hstr)`: upper-cases first, validates `[0-9A-F]+` after optional
sign, then sums `HEX_DIGITS.index(digit) * 16 ** i` over the reversed string. -/
def hex_to_dec (hstr : String) : Except String Int :=
  let l := hstr.data.map Char.toUpper
  let is_negative := l.head? = some '-'
  let body := pyBody l
  if body ≠ [] ∧ body.all (fun c => ('0' ≤ c && c ≤ '9') || ('A' ≤ c && c ≤ 'F')) then
    let decimal_value := positionalSum (fun c => (hexIndex c : Int)) 16 body.reverse 0
    .ok (if is_negative then -decimal_value else decimal_value)
  else .error "Invalid hexadecimal number"

/-- `bin_to_oct(bstr) = dec_to_oct(bin_to_dec(bstr))`. -/
def bin_to_oct (bstr : String) : Except String String :=
  match bin_to_dec bstr with
  | .ok v => .ok (dec_to_oct v)
  | .error e => .error e

/-- `bin_to_hex(bstr) = dec_to_hex(bin_to_dec(bstr))`. -/
def bin_to_hex (bstr : String) : Except String String :=
  match bin_to_dec bstr with
  | .ok v => .ok (dec_to_hex v)
  | .error e => .error e

/-- `oct_to_bin(ostr) = dec_to_bin(oct_to_dec(ostr))`. -/
def oct_to_bin (ostr : String) : Except String String :=
  match oct_to_dec ostr with
  | .ok v => .ok (dec_to_bin v)
  | .error e => .error e

/-- `oct_to_hex(ostr) = dec_to_hex(oct_to_dec(ostr))`. -/
def oct_to_hex (ostr : String) : Except String String :=
  match oct_to_dec ostr with
  | .ok v => .ok (dec_to_hex v)
  | .error e => .error e

/-- `hex_to_bin(hstr) = dec_to_bin(hex_to_dec(hstr))`. -/
def hex_to_bin (hstr : String) : Except String String :=
  match hex_to_dec hstr with
  | .ok v => .ok (dec_to_bin v)
  | .error e => .error e

/-- `hex_to_oct(hstr) = dec_to_oct(hex_to_dec(hstr))`. -/
def hex_to_oct (hstr : String) : Except String String :=
  match hex_to_dec hstr with
  | .ok v => .ok (dec_to_oct v)
  | .error e => .error e

/-- Python `abs` on the rational modelling a float. -/
def pyAbs (x : ℚ) : ℚ := if x < 0 then -x else x

/-- `int(abs(x))`: truncation toward zero of the exact rational. -/
def intPart (x : ℚ) : Int := (pyAbs x).num.tdiv ((pyAbs x).den : Int)

/-- Numerator of `frac_part = abs(x) - int_part` over the fixed denominator
`(pyAbs x).den`. -/
def fracNum (x : ℚ) : Int := (pyAbs x).num - intPart x * ((pyAbs x).den : Int)

/-- The fractional-digit loop of `dec_to_base_float`.  The working fraction is
represented exactly as `nf / den` with the denominator `den` fixed: multiplying
by `base` and subtracting the emitted digit keep that denominator, so only the
numerator `nf` changes.  One iteration is `working_frac *= base;
int_digit = int(working_frac); append BASE_DIGITS[int_digit];
working_frac -= int_digit; if working_frac == 0: break`, run at most
`precision` times. -/
def fracLoop (base den : Int) : Int → Nat → List Char
  | _, 0 => []
  | nf, precision + 1 =>
    let nf1 := nf * base
    let int_digit := nf1.tdiv den
    let c := digitChar int_digit.toNat
    let nf2 := nf1 - int_digit * den
    if nf2 = 0 then [c] else c :: fracLoop base den nf2 precision

/-- `dec_to_base_float(x, base, precision)` (default precision 10).  Note the
source checks `decimal == 0` before validating the base. -/
def dec_to_base_float (x : ℚ) (base : Int) (precision : Nat := 10) :
    Except String String :=
  if x = 0 then .ok "0.0"
  else if ¬(2 ≤ base ∧ base ≤ 16) then .error "Base must be between 2 and 16"
  else
    match dec_to_base (intPart x) base with
    | .error e => .error e
    | .ok int_result =>
      let frac_result := fracLoop base ((pyAbs x).den : Int) (fracNum x) precision
      let result := if frac_result = [] then int_result
        else int_result ++ "." ++ String.mk frac_result
      .ok (if x < 0 then "-" ++ result else result)

/-- `char_to_ascii(char)`: the argument is a Python string given as its list of
code points (which, unlike Lean `Char`, can include lone surrogates); `ord`
of a one-character string is that code point. -/
def char_to_ascii (char : List Nat) : Except String Nat :=
  if char.length ≠ 1 then .error "Please enter a single character"
  else .ok (char.headD 0)

/-- `ascii_to_char(code_point)`: the range check rejects values outside
[0, 1114111]; inside that range Python's `chr` always succeeds (including the
surrogate range), returning the one-character string with that code point. -/
def ascii_to_char (code_point : Int) : Except String Nat :=
  if ¬(0 ≤ code_point ∧ code_point ≤ 1114111) then
    .error "Code point must be between 0 and 1114111"
  else .ok code_point.toNat

/-- Python `str.strip()` on a character list. -/
def pyStrip (l : List Char) : List Char :=
  ((l.dropWhile Char.isWhitespace).reverse.dropWhile Char.isWhitespace).reverse

/-- `s.startswith(xy)` for a two-character literal `xy`. -/
def startsWith2 (l : List Char) (a b : Char) : Bool :=
  match l with
  | c :: d :: _ => c == a && d == b
  | _ => false

/-- `[01]` character class. -/
def isBinDigit (c : Char) : Bool := c == '0' || c == '1'

/-- `[0-7]` character class. -/
def isOctDigit (c : Char) : Bool := '0' ≤ c && c ≤ '7'

/-- `[0-9]` character class. -/
def isDecDigit (c : Char) : Bool := '0' ≤ c && c ≤ '9'

/-- `[0-9A-Fa-f]` character class. -/
def isHexDigit (c : Char) : Bool :=
  ('0' ≤ c && c ≤ '9') || ('A' ≤ c && c ≤ 'F') || ('a' ≤ c && c ≤ 'f')

/-- `re.fullmatch(r'-?<class>+', s)`: optional leading `'-'`, then a nonempty
run of characters of the class. -/
def fullmatchOptSign (p : Char → Bool) (l : List Char) : Bool :=
  match l with
  | '-' :: rest => !rest.isEmpty && rest.all p
  | _ => !l.isEmpty && l.all p

/-- `detect_base(number_str)`: strip, check `0b`/`0o`/`0x` prefixes on the
lower-cased string (without validating the rest), then classify the body in
priority order binary, octal, decimal, hex; `0` means unknown. -/
def detect_base (number_str : String) : Nat :=
  if startsWith2 ((pyStrip number_str.data).map Char.toLower) '0' 'b' then 2
  else if startsWith2 ((pyStrip number_str.data).map Char.toLower) '0' 'o' then 8
  else if startsWith2 ((pyStrip number_str.data).map Char.toLower) '0' 'x' then 16
  else if fullmatchOptSign isBinDigit (pyStrip number_str.data) then 2
  else if fullmatchOptSign isOctDigit (pyStrip number_str.data) then 8
  else if fullmatchOptSign isDecDigit (pyStrip number_str.data) then 10
  else if fullmatchOptSign isHexDigit (pyStrip number_str.data) then 16
  else 0

/-! ### Facts about the digit characters, all decided by enumeration -/

theorem digitChar_toUpper : ∀ r, r < 16 → (digitChar r).toUpper = digitChar r := by decide

theorem digitIndex_digitChar : ∀ r, r < 16 → digitIndex (digitChar r) = r := by decide

theorem digitChar_ne_dash : ∀ r, r < 16 → digitChar r ≠ '-' := by decide

theorem digitChar_elem_take :
    ∀ b, b < 17 → ∀ r, r < b → List.elem (digitChar r) (baseDigits.take b) = true := by decide

theorem decChar_eq_digitChar : ∀ r, r < 10 → decChar r = digitChar r := by decide

theorem hexChar_eq_digitChar : ∀ r, r < 16 → hexChar r = digitChar r := by decide

theorem digitToInt_decChar : ∀ r, r < 10 → digitToInt (decChar r) = r := by decide

theorem hexIndex_hexChar : ∀ r, r < 16 → hexIndex (hexChar r) = r := by decide

theorem decChar_isBin : ∀ r, r < 2 → (decChar r == '0' || decChar r == '1') = true := by decide

theorem decChar_isOct : ∀ r, r < 8 → ('0' ≤ decChar r && decChar r ≤ '7') = true := by decide

theorem hexChar_isHex : ∀ r, r < 16 →
    (('0' ≤ hexChar r && hexChar r ≤ '9') || ('A' ≤ hexChar r && hexChar r ≤ 'F')) = true := by
  decide

theorem hexChar_toUpper : ∀ r, r < 16 → (hexChar r).toUpper = hexChar r := by decide

theorem mem_baseDigits_ne_dash {c : Char} (h : c ∈ baseDigits) : c ≠ '-' := by
  fin_cases h <;> decide

/-! ### The digit loops produce exactly `Nat.digits` -/

theorem convLoop_fst (bn : Nat) (hbn : 2 ≤ bn) :
    ∀ fuel wn k, wn ≤ fuel → (convLoop bn fuel wn k).1 = (Nat.digits bn wn).map digitChar := by
  intro fuel
  induction fuel with
  | zero =>
    intro wn k h
    interval_cases wn
    simp [convLoop]
  | succ fuel ih =>
    intro wn k h
    by_cases hw : wn = 0
    · subst hw; simp [convLoop]
    · have hlt : wn / bn < wn := Nat.div_lt_self (Nat.pos_of_ne_zero hw) (by omega)
      simp only [convLoop, hw, if_false]
      rw [ih (wn / bn) (k + 1) (by omega),
        Nat.digits_def' (by omega : 1 < bn) (Nat.pos_of_ne_zero hw)]
      simp

theorem convLoop_len (bn : Nat) :
    ∀ fuel wn k, ((convLoop bn fuel wn k).2).length = ((convLoop bn fuel wn k).1).length := by
  intro fuel
  induction fuel with
  | zero => intro wn k; simp [convLoop]
  | succ fuel ih =>
    intro wn k
    by_cases hw : wn = 0
    · simp [convLoop, hw]
    · simp [convLoop, hw, ih]

theorem binLoop_digits : ∀ fuel wn, wn ≤ fuel → binLoop fuel wn = (Nat.digits 2 wn).map decChar := by
  intro fuel
  induction fuel with
  | zero =>
    intro wn h
    interval_cases wn
    simp [binLoop]
  | succ fuel ih =>
    intro wn h
    by_cases hw : wn = 0
    · subst hw; simp [binLoop]
    · have h1 : wn &&& 1 = wn % 2 := Nat.and_one_is_mod wn
      have h2 : wn >>> 1 = wn / 2 := by rw [Nat.shiftRight_eq_div_pow]
      have hlt : wn / 2 < wn := Nat.div_lt_self (Nat.pos_of_ne_zero hw) one_lt_two
      simp only [binLoop, hw, if_false, h1, h2]
      rw [Nat.digits_def' one_lt_two (Nat.pos_of_ne_zero hw)]
      simp [ih (wn / 2) (by omega : wn / 2 ≤ fuel)]

theorem octLoop_digits : ∀ fuel wn, wn ≤ fuel → octLoop fuel wn = (Nat.digits 8 wn).map decChar := by
  intro fuel
  induction fuel with
  | zero =>
    intro wn h
    interval_cases wn
    simp [octLoop]
  | succ fuel ih =>
    intro wn h
    by_cases hw : wn = 0
    · subst hw; simp [octLoop]
    · have h1 : wn &&& 7 = wn % 8 := by
        have := Nat.and_pow_two_sub_one_eq_mod wn 3
        norm_num at this
        exact this
      have h2 : wn >>> 3 = wn / 8 := by rw [Nat.shiftRight_eq_div_pow]
      have hlt : wn / 8 < wn := Nat.div_lt_self (Nat.pos_of_ne_zero hw) (by norm_num)
      simp only [octLoop, hw, if_false, h1, h2]
      rw [Nat.digits_def' (by norm_num : 1 < 8) (Nat.pos_of_ne_zero hw)]
      simp [ih (wn / 8) (by omega : wn / 8 ≤ fuel)]

theorem hexLoop_digits : ∀ fuel wn, wn ≤ fuel → hexLoop fuel wn = (Nat.digits 16 wn).map hexChar := by
  intro fuel
  induction fuel with
  | zero =>
    intro wn h
    interval_cases wn
    simp [hexLoop]
  | succ fuel ih =>
    intro wn h
    by_cases hw : wn = 0
    · subst hw; simp [hexLoop]
    · have h1 : wn &&& 15 = wn % 16 := by
        have := Nat.and_pow_two_sub_one_eq_mod wn 4
        norm_num at this
        exact this
      have h2 : wn >>> 4 = wn / 16 := by rw [Nat.shiftRight_eq_div_pow]
      have hlt : wn / 16 < wn := Nat.div_lt_self (Nat.pos_of_ne_zero hw) (by norm_num)
      simp only [hexLoop, hw, if_false, h1, h2]
      rw [Nat.digits_def' (by norm_num : 1 < 16) (Nat.pos_of_ne_zero hw)]
      simp [ih (wn / 16) (by omega : wn / 16 ≤ fuel)]

/-! ### `bitLenLoop` computes `Nat.size`, i.e. Python's `bit_length` -/

theorem bitLenLoop_zero : ∀ fuel, bitLenLoop fuel 0 = 0 := by
  intro fuel; cases fuel <;> simp [bitLenLoop]

theorem bitLenLoop_bounds : ∀ fuel m, m ≤ fuel →
    m < 2 ^ bitLenLoop fuel m ∧ (m ≠ 0 → 2 ^ (bitLenLoop fuel m - 1) ≤ m) := by
  intro fuel
  induction fuel with
  | zero =>
    intro m h
    interval_cases m
    simp [bitLenLoop]
  | succ fuel ih =>
    intro m h
    by_cases hm : m = 0
    · subst hm; simp [bitLenLoop]
    · have hlt : m / 2 < m := Nat.div_lt_self (Nat.pos_of_ne_zero hm) one_lt_two
      obtain ⟨ub, lb⟩ := ih (m / 2) (by omega)
      simp only [bitLenLoop, hm, if_false]
      refine ⟨?_, fun _ => ?_⟩
      · have h2 : 2 ^ (bitLenLoop fuel (m / 2) + 1) = 2 * 2 ^ bitLenLoop fuel (m / 2) := by ring
        omega
      · by_cases hd : m / 2 = 0
        · have hm1 : m = 1 := by omega
          rw [hd, bitLenLoop_zero] at *
          simp [hm1]
        · have hlb := lb hd
          have hL1 : 1 ≤ bitLenLoop fuel (m / 2) := by
            rcases Nat.eq_zero_or_pos (bitLenLoop fuel (m / 2)) with h0 | h0
            · rw [h0] at ub; norm_num at ub; omega
            · exact h0
          have hsplit : 2 ^ bitLenLoop fuel (m / 2) =
              2 * 2 ^ (bitLenLoop fuel (m / 2) - 1) := by
            rw [← pow_succ']
            congr 1
            omega
          simp only [Nat.add_sub_cancel]
          omega

theorem bitLenLoop_eq_size : ∀ fuel m, m ≤ fuel → bitLenLoop fuel m = Nat.size m := by
  intro fuel m h
  by_cases hm : m = 0
  · subst hm; simp [bitLenLoop_zero, Nat.size_zero]
  · obtain ⟨ub, lb⟩ := bitLenLoop_bounds fuel m h
    have h1 : Nat.size m ≤ bitLenLoop fuel m := Nat.size_le.mpr ub
    have hL1 : 1 ≤ bitLenLoop fuel m := by
      rcases Nat.eq_zero_or_pos (bitLenLoop fuel m) with h0 | h0
      · rw [h0] at ub; norm_num at ub; omega
      · exact h0
    have h2 : bitLenLoop fuel m - 1 < Nat.size m := Nat.lt_size.mpr (lb hm)
    omega

/-- Python's `bit_length` agrees with `Nat.size` of the absolute value. -/
theorem pyBitLength_eq_size (n : Int) : pyBitLength n = Nat.size n.natAbs :=
  bitLenLoop_eq_size n.natAbs n.natAbs le_rfl

/-! ### The positional sums recover `Nat.ofDigits` -/

theorem positionalSum_succ (val : Char → Int) (b : Int) (L : List Char) :
    ∀ i, positionalSum val b L (i + 1) = b * positionalSum val b L i := by
  induction L with
  | nil => intro i; simp [positionalSum]
  | cons c cs ih =>
    intro i
    simp only [positionalSum, ih (i + 1)]
    ring

theorem positionalSum_ofDigits (val : Char → Int) (ch : Nat → Char) (bn : Nat)
    (hv : ∀ d, d < bn → val (ch d) = d) :
    ∀ ds : List Nat, (∀ d ∈ ds, d < bn) →
      positionalSum val (bn : Int) (ds.map ch) 0 = ((Nat.ofDigits bn ds : ℕ) : Int) := by
  intro ds
  induction ds with
  | nil => intro _; simp [positionalSum, Nat.ofDigits_nil]
  | cons d tl ih =>
    intro hall
    have hd : d < bn := hall d (List.mem_cons_self d tl)
    have hcast : ((Nat.ofDigits bn (d :: tl) : ℕ) : Int) =
        (d : Int) + (bn : Int) * ((Nat.ofDigits bn tl : ℕ) : Int) := by
      rw [Nat.ofDigits_cons]; push_cast; ring
    simp only [List.map_cons, positionalSum, pow_zero, mul_one, hv d hd, hcast]
    rw [positionalSum_succ, ih (fun x hx => hall x (List.mem_cons_of_mem d hx))]

/-! ### Structure of `dec_to_base` and `base_to_dec` on digit strings -/

theorem dash_append_data (s : String) : ("-" ++ s).data = '-' :: s.data := by
  have h1 : ("-" ++ s).data = ("-" : String).data ++ s.data := rfl
  have h2 : ("-" : String).data = ['-'] := by decide
  rw [h1, h2]
  rfl

theorem dec_to_base_zero (b : Int) : dec_to_base 0 b = .ok "0" := by
  simp [dec_to_base]

theorem dec_to_base_eq (n b : Int) (hb2 : 2 ≤ b) (hb16 : b ≤ 16) (hn : n ≠ 0) :
    dec_to_base n b = .ok (if n < 0 then
      "-" ++ String.mk (((Nat.digits b.toNat n.natAbs).map digitChar).reverse)
      else String.mk (((Nat.digits b.toNat n.natAbs).map digitChar).reverse)) := by
  have hbn : 2 ≤ b.toNat := by omega
  have hfst := convLoop_fst b.toNat hbn n.natAbs n.natAbs 1 le_rfl
  simp [dec_to_base, hn, hb2, hb16, hfst]

theorem dec_to_base_ok (n b : Int) (hb2 : 2 ≤ b) (hb16 : b ≤ 16) :
    ∃ s, dec_to_base n b = .ok s := by
  by_cases hn : n = 0
  · exact ⟨"0", by simp [dec_to_base, hn]⟩
  · exact ⟨_, dec_to_base_eq n b hb2 hb16 hn⟩

theorem digitChars_head_ne_dash {ds : List Nat} (h16 : ∀ d ∈ ds, d < 16) :
    ¬ ((ds.map digitChar).reverse.head? = some '-') := by
  intro hcontra
  rcases hds : (ds.map digitChar).reverse with _ | ⟨a, t⟩
  · rw [hds] at hcontra; simp at hcontra
  · rw [hds] at hcontra
    simp only [List.head?_cons, Option.some.injEq] at hcontra
    have ha : a ∈ (ds.map digitChar).reverse := by rw [hds]; exact List.mem_cons_self a t
    rw [List.mem_reverse] at ha
    obtain ⟨d, hdmem, hdeq⟩ := List.mem_map.mp ha
    exact digitChar_ne_dash d (h16 d hdmem) (hdeq.trans hcontra)

theorem digitChars_toUpper {ds : List Nat} (h16 : ∀ d ∈ ds, d < 16) :
    ((ds.map digitChar).reverse).map Char.toUpper = (ds.map digitChar).reverse := by
  rw [← List.map_reverse, List.map_map]
  exact List.map_congr_left (fun d hd =>
    digitChar_toUpper d (h16 d (List.mem_reverse.mp hd)))

theorem digitChars_valid (b : Int) (hb16 : b ≤ 16) {ds : List Nat}
    (hds : ∀ d ∈ ds, d < b.toNat) (hne : ds ≠ []) :
    (ds.map digitChar).reverse ≠ [] ∧
      ((ds.map digitChar).reverse).all
        (fun c => List.elem c (baseDigits.take b.toNat)) = true := by
  refine ⟨by simp [hne], List.all_eq_true.mpr ?_⟩
  intro c hc
  rw [List.mem_reverse] at hc
  obtain ⟨d, hdmem, hdeq⟩ := List.mem_map.mp hc
  rw [← hdeq]
  exact digitChar_elem_take b.toNat (by omega) d (hds d hdmem)

theorem base_to_dec_digits_pos (b : Int) (hb2 : 2 ≤ b) (hb16 : b ≤ 16)
    (ds : List Nat) (hds : ∀ d ∈ ds, d < b.toNat) (hne : ds ≠ []) :
    base_to_dec (String.mk ((ds.map digitChar).reverse)) b =
      .ok ((Nat.ofDigits b.toNat ds : ℕ) : Int) := by
  have h16 : ∀ d ∈ ds, d < 16 := fun d hd => lt_of_lt_of_le (hds d hd) (by omega)
  have hhead := digitChars_head_ne_dash h16
  have hbody : pyBody ((ds.map digitChar).reverse) = (ds.map digitChar).reverse := by
    unfold pyBody
    rw [if_neg hhead]
  have hup := digitChars_toUpper h16
  have hvalid := digitChars_valid b hb16 hds hne
  have hsum : positionalSum (fun c => (digitIndex c : Int)) b (ds.map digitChar) 0 =
      ((Nat.ofDigits b.toNat ds : ℕ) : Int) := by
    have hb' : b = ((b.toNat : ℕ) : Int) := (Int.toNat_of_nonneg (by omega)).symm
    rw [hb']
    exact positionalSum_ofDigits _ digitChar b.toNat
      (fun d hd => by rw [digitIndex_digitChar d (by omega)]) ds hds
  simp only [base_to_dec, show (String.mk ((ds.map digitChar).reverse)).data =
    (ds.map digitChar).reverse from rfl, hbody, hup]
  rw [if_neg (not_not_intro ⟨hb2, hb16⟩), if_pos hvalid, if_neg hhead,
    List.reverse_reverse, hsum]

theorem base_to_dec_digits_neg (b : Int) (hb2 : 2 ≤ b) (hb16 : b ≤ 16)
    (ds : List Nat) (hds : ∀ d ∈ ds, d < b.toNat) (hne : ds ≠ []) :
    base_to_dec ("-" ++ String.mk ((ds.map digitChar).reverse)) b =
      .ok (-((Nat.ofDigits b.toNat ds : ℕ) : Int)) := by
  have h16 : ∀ d ∈ ds, d < 16 := fun d hd => lt_of_lt_of_le (hds d hd) (by omega)
  have hdata : ("-" ++ String.mk ((ds.map digitChar).reverse)).data =
      '-' :: (ds.map digitChar).reverse := dash_append_data _
  have hbody : pyBody ('-' :: (ds.map digitChar).reverse) = (ds.map digitChar).reverse := by
    unfold pyBody
    rw [if_pos (by simp)]
    rfl
  have hup := digitChars_toUpper h16
  have hvalid := digitChars_valid b hb16 hds hne
  have hsum : positionalSum (fun c => (digitIndex c : Int)) b (ds.map digitChar) 0 =
      ((Nat.ofDigits b.toNat ds : ℕ) : Int) := by
    have hb' : b = ((b.toNat : ℕ) : Int) := (Int.toNat_of_nonneg (by omega)).symm
    rw [hb']
    exact positionalSum_ofDigits _ digitChar b.toNat
      (fun d hd => by rw [digitIndex_digitChar d (by omega)]) ds hds
  simp only [base_to_dec, hdata, hbody, hup]
  rw [if_neg (not_not_intro ⟨hb2, hb16⟩), if_pos hvalid, if_pos (by simp),
    List.reverse_reverse, hsum]

/-- C1: for every integer `n` (including 0, negatives, and values near ±2^63)
and every base `b` in [2,16], `base_to_dec (dec_to_base n b) b` returns `n`. -/
theorem c1_base_roundtrip (n b : Int) (hb2 : 2 ≤ b) (hb16 : b ≤ 16) :
    (dec_to_base n b).bind (fun s => base_to_dec s b) = .ok n := by
  by_cases hn : n = 0
  · subst hn
    rw [dec_to_base_zero]
    show base_to_dec "0" b = .ok 0
    have h := base_to_dec_digits_pos b hb2 hb16 [0]
      (by intro d hd; simp at hd; omega) (by simp)
    have hstr : String.mk (([0].map digitChar).reverse) = "0" := by decide
    have hval : ((Nat.ofDigits b.toNat [0] : ℕ) : Int) = 0 := by
      simp [Nat.ofDigits_cons, Nat.ofDigits_nil]
    rw [hstr, hval] at h
    exact h
  · rw [dec_to_base_eq n b hb2 hb16 hn]
    have hlt : ∀ d ∈ Nat.digits b.toNat n.natAbs, d < b.toNat :=
      fun d hd => Nat.digits_lt_base (by omega) hd
    have hne : Nat.digits b.toNat n.natAbs ≠ [] :=
      Nat.digits_ne_nil_iff_ne_zero.mpr (Int.natAbs_ne_zero.mpr hn)
    by_cases hneg : n < 0
    · simp only [if_pos hneg]
      show base_to_dec ("-" ++ String.mk
        (((Nat.digits b.toNat n.natAbs).map digitChar).reverse)) b = .ok n
      rw [base_to_dec_digits_neg b hb2 hb16 _ hlt hne, Nat.ofDigits_digits]
      congr 1
      omega
    · simp only [if_neg hneg]
      show base_to_dec (String.mk
        (((Nat.digits b.toNat n.natAbs).map digitChar).reverse)) b = .ok n
      rw [base_to_dec_digits_pos b hb2 hb16 _ hlt hne, Nat.ofDigits_digits]
      congr 1
      omega

/-- Witness for C1 at the 64-bit boundary value `-2^63` in base 16. -/
theorem c1_base_roundtrip_witness :
    (dec_to_base (-(2 ^ 63)) 16).bind (fun s => base_to_dec s 16) = .ok (-(2 ^ 63)) :=
  c1_base_roundtrip (-(2 ^ 63)) 16 (by decide) (by decide)

/-! ### Fixed-base wrappers -/

theorem decChar_ne_dash : ∀ r, r < 10 → decChar r ≠ '-' := by decide

theorem hexChar_ne_dash : ∀ r, r < 16 → hexChar r ≠ '-' := by decide

theorem dec_to_bin_nonneg (n : Int) (h0 : 0 ≤ n) (hn : n ≠ 0) :
    dec_to_bin n = String.mk (((Nat.digits 2 n.natAbs).map decChar).reverse) := by
  have hneg : ¬(n < 0) := by omega
  simp [dec_to_bin, hn, hneg, binLoop_digits n.natAbs n.natAbs le_rfl]

theorem dec_to_oct_nonneg (n : Int) (h0 : 0 ≤ n) (hn : n ≠ 0) :
    dec_to_oct n = String.mk (((Nat.digits 8 n.natAbs).map decChar).reverse) := by
  have hneg : ¬(n < 0) := by omega
  simp [dec_to_oct, hn, hneg, octLoop_digits n.natAbs n.natAbs le_rfl]

theorem dec_to_hex_nonneg (n : Int) (h0 : 0 ≤ n) (hn : n ≠ 0) :
    dec_to_hex n = String.mk (((Nat.digits 16 n.natAbs).map hexChar).reverse) := by
  have hneg : ¬(n < 0) := by omega
  simp [dec_to_hex, hn, hneg, hexLoop_digits n.natAbs n.natAbs le_rfl]

/-- C4: for nonnegative inputs the masking/shifting wrappers `dec_to_bin`,
`dec_to_oct`, `dec_to_hex` produce output identical to the generic
`dec_to_base` at bases 2, 8, 16. -/
theorem c4_wrappers (n : Int) (h0 : 0 ≤ n) :
    dec_to_base n 2 = .ok (dec_to_bin n) ∧ dec_to_base n 8 = .ok (dec_to_oct n) ∧
      dec_to_base n 16 = .ok (dec_to_hex n) := by
  by_cases hn : n = 0
  · subst hn
    refine ⟨by decide, by decide, by decide⟩
  · have hneg : ¬(n < 0) := by omega
    refine ⟨?_, ?_, ?_⟩
    · rw [dec_to_base_eq n 2 (by norm_num) (by norm_num) hn, if_neg hneg,
        dec_to_bin_nonneg n h0 hn]
      have hmap : (Nat.digits 2 n.natAbs).map decChar =
          (Nat.digits 2 n.natAbs).map digitChar :=
        List.map_congr_left (fun d hd => decChar_eq_digitChar d
          (lt_of_lt_of_le (Nat.digits_lt_base one_lt_two hd) (by norm_num)))
      rw [hmap]
      rfl
    · rw [dec_to_base_eq n 8 (by norm_num) (by norm_num) hn, if_neg hneg,
        dec_to_oct_nonneg n h0 hn]
      have hmap : (Nat.digits 8 n.natAbs).map decChar =
          (Nat.digits 8 n.natAbs).map digitChar :=
        List.map_congr_left (fun d hd => decChar_eq_digitChar d
          (lt_of_lt_of_le (Nat.digits_lt_base (by norm_num) hd) (by norm_num)))
      rw [hmap]
      rfl
    · rw [dec_to_base_eq n 16 (by norm_num) (by norm_num) hn, if_neg hneg,
        dec_to_hex_nonneg n h0 hn]
      have hmap : (Nat.digits 16 n.natAbs).map hexChar =
          (Nat.digits 16 n.natAbs).map digitChar :=
        List.map_congr_left (fun d hd => hexChar_eq_digitChar d
          (Nat.digits_lt_base (by norm_num) hd))
      rw [hmap]
      rfl

/-- Witness for C4 at `n = 255`. -/
theorem c4_wrappers_witness :
    dec_to_base 255 2 = .ok (dec_to_bin 255) ∧ dec_to_base 255 8 = .ok (dec_to_oct 255) ∧
      dec_to_base 255 16 = .ok (dec_to_hex 255) :=
  c4_wrappers 255 (by decide)

/-! ### Two's-complement behaviour of `dec_to_bin` on negatives -/

/-- C2: for negative `n`, `dec_to_bin n` is `'-'` followed by the binary digits
of `(1 <<< (bitlength |n| + 1)) + n`, and that bit pattern has exactly
`bitlength |n| + 1` digits. -/
theorem c2_twos_complement (n : Int) (hn : n < 0) :
    dec_to_bin n = "-" ++ String.mk (((Nat.digits 2
        ((2 ^ (Nat.size n.natAbs + 1) : Int) + n).toNat).map decChar).reverse) ∧
      (Nat.digits 2 ((2 ^ (Nat.size n.natAbs + 1) : Int) + n).toNat).length =
        Nat.size n.natAbs + 1 := by
  have hn0 : n ≠ 0 := by omega
  have hpy : pyBitLength n = Nat.size n.natAbs := pyBitLength_eq_size n
  have ha1 : 1 ≤ n.natAbs := by omega
  have haL : n.natAbs < 2 ^ Nat.size n.natAbs := Nat.lt_size_self n.natAbs
  have hcast : (n.natAbs : Int) = -n := Int.ofNat_natAbs_of_nonpos (by omega)
  have hpow : (2 : Int) ^ (Nat.size n.natAbs + 1) =
      ((2 ^ (Nat.size n.natAbs + 1) : ℕ) : Int) := by push_cast; ring
  have hpow2 : (2 : ℕ) ^ (Nat.size n.natAbs + 1) = 2 * 2 ^ Nat.size n.natAbs := by ring
  have hmval : ((2 ^ (Nat.size n.natAbs + 1) : Int) + n).toNat =
      2 ^ (Nat.size n.natAbs + 1) - n.natAbs := by
    rw [hpow]
    omega
  have hm0 : ((2 ^ (Nat.size n.natAbs + 1) : Int) + n).toNat ≠ 0 := by
    rw [hmval]
    omega
  constructor
  · simp only [dec_to_bin, hn0, if_false, hn, if_true, hpy]
    rw [binLoop_digits _ _ le_rfl]
  · rw [Nat.digits_len 2 _ one_lt_two hm0]
    have hlog : Nat.log 2 ((2 ^ (Nat.size n.natAbs + 1) : Int) + n).toNat =
        Nat.size n.natAbs := by
      apply Nat.log_eq_of_pow_le_of_lt_pow
      · rw [hmval]; omega
      · rw [hmval]; omega
    rw [hlog]

/-- Witness for C2 at `n = -1`, where the output is `"-11"`. -/
theorem c2_twos_complement_witness :
    dec_to_bin (-1) = "-" ++ String.mk (((Nat.digits 2
        ((2 ^ (Nat.size (Int.natAbs (-1)) + 1) : Int) + (-1)).toNat).map decChar).reverse) ∧
      dec_to_bin (-1) = "-11" :=
  ⟨(c2_twos_complement (-1) (by decide)).1, by decide⟩

/-! ### Round trips through the fixed-base string parsers -/

theorem mapped_head_ne_dash {ds : List Nat} {ch : Nat → Char} {bound : Nat}
    (hch : ∀ d, d < bound → ch d ≠ '-') (hds : ∀ d ∈ ds, d < bound) :
    ¬ ((ds.map ch).reverse.head? = some '-') := by
  intro hcontra
  rcases hds' : (ds.map ch).reverse with _ | ⟨a, t⟩
  · rw [hds'] at hcontra; simp at hcontra
  · rw [hds'] at hcontra
    simp only [List.head?_cons, Option.some.injEq] at hcontra
    have ha : a ∈ (ds.map ch).reverse := by rw [hds']; exact List.mem_cons_self a t
    rw [List.mem_reverse] at ha
    obtain ⟨d, hdmem, hdeq⟩ := List.mem_map.mp ha
    exact hch d (hds d hdmem) (hdeq.trans hcontra)

theorem mapped_all (ds : List Nat) (ch : Nat → Char) (p : Char → Bool) (bound : Nat)
    (hp : ∀ d, d < bound → p (ch d) = true) (hds : ∀ d ∈ ds, d < bound) :
    ((ds.map ch).reverse).all p = true := by
  apply List.all_eq_true.mpr
  intro c hc
  rw [List.mem_reverse] at hc
  obtain ⟨d, hdmem, hdeq⟩ := List.mem_map.mp hc
  rw [← hdeq]
  exact hp d (hds d hdmem)

theorem bin_to_dec_digits (ds : List Nat) (hds : ∀ d ∈ ds, d < 2) (hne : ds ≠ []) :
    bin_to_dec (String.mk ((ds.map decChar).reverse)) = .ok ((Nat.ofDigits 2 ds : ℕ) : Int) := by
  have hhead := mapped_head_ne_dash (fun d hd => decChar_ne_dash d (by omega)) hds
  have hbody : pyBody ((ds.map decChar).reverse) = (ds.map decChar).reverse := by
    unfold pyBody
    rw [if_neg hhead]
  have hvalid := mapped_all ds decChar (fun c => c == '0' || c == '1') 2
    (fun d hd => decChar_isBin d hd) hds
  have hsum : positionalSum digitToInt 2 (ds.map decChar) 0 =
      ((Nat.ofDigits 2 ds : ℕ) : Int) := by
    have := positionalSum_ofDigits digitToInt decChar 2
      (fun d hd => digitToInt_decChar d (by omega)) ds hds
    simpa using this
  simp only [bin_to_dec, show (String.mk ((ds.map decChar).reverse)).data =
    (ds.map decChar).reverse from rfl, hbody]
  rw [if_pos ⟨by simp [hne], hvalid⟩, if_neg hhead, List.reverse_reverse, hsum]

theorem oct_to_dec_digits (ds : List Nat) (hds : ∀ d ∈ ds, d < 8) (hne : ds ≠ []) :
    oct_to_dec (String.mk ((ds.map decChar).reverse)) = .ok ((Nat.ofDigits 8 ds : ℕ) : Int) := by
  have hhead := mapped_head_ne_dash (fun d hd => decChar_ne_dash d (by omega)) hds
  have hbody : pyBody ((ds.map decChar).reverse) = (ds.map decChar).reverse := by
    unfold pyBody
    rw [if_neg hhead]
  have hvalid := mapped_all ds decChar (fun c => '0' ≤ c && c ≤ '7') 8
    (fun d hd => decChar_isOct d hd) hds
  have hsum : positionalSum digitToInt 8 (ds.map decChar) 0 =
      ((Nat.ofDigits 8 ds : ℕ) : Int) := by
    have := positionalSum_ofDigits digitToInt decChar 8
      (fun d hd => digitToInt_decChar d (by omega)) ds hds
    simpa using this
  simp only [oct_to_dec, show (String.mk ((ds.map decChar).reverse)).data =
    (ds.map decChar).reverse from rfl, hbody]
  rw [if_pos ⟨by simp [hne], hvalid⟩, if_neg hhead, List.reverse_reverse, hsum]

theorem hex_to_dec_digits (ds : List Nat) (hds : ∀ d ∈ ds, d < 16) (hne : ds ≠ []) :
    hex_to_dec (String.mk ((ds.map hexChar).reverse)) = .ok ((Nat.ofDigits 16 ds : ℕ) : Int) := by
  have hhead := mapped_head_ne_dash (fun d hd => hexChar_ne_dash d hd) hds
  have hupper : ((ds.map hexChar).reverse).map Char.toUpper = (ds.map hexChar).reverse := by
    rw [← List.map_reverse, List.map_map]
    exact List.map_congr_left (fun d hd =>
      hexChar_toUpper d (hds d (List.mem_reverse.mp hd)))
  have hbody : pyBody ((ds.map hexChar).reverse) = (ds.map hexChar).reverse := by
    unfold pyBody
    rw [if_neg hhead]
  have hvalid := mapped_all ds hexChar
    (fun c => ('0' ≤ c && c ≤ '9') || ('A' ≤ c && c ≤ 'F')) 16
    (fun d hd => hexChar_isHex d hd) hds
  have hsum : positionalSum (fun c => (hexIndex c : Int)) 16 (ds.map hexChar) 0 =
      ((Nat.ofDigits 16 ds : ℕ) : Int) := by
    have := positionalSum_ofDigits (fun c => (hexIndex c : Int)) hexChar 16
      (fun d hd => by simp only [hexIndex_hexChar d hd]) ds hds
    simpa using this
  simp only [hex_to_dec, show (String.mk ((ds.map hexChar).reverse)).data =
    (ds.map hexChar).reverse from rfl, hupper, hbody]
  rw [if_pos ⟨by simp [hne], hvalid⟩, if_neg hhead, List.reverse_reverse, hsum]

theorem bin_roundtrip (m : Nat) : bin_to_dec (dec_to_bin (m : Int)) = .ok (m : Int) := by
  by_cases hm : m = 0
  · subst hm; decide
  · rw [dec_to_bin_nonneg (m : Int) (Int.natCast_nonneg m) (Int.natCast_ne_zero.mpr hm),
      Int.natAbs_ofNat,
      bin_to_dec_digits (Nat.digits 2 m) (fun d hd => Nat.digits_lt_base one_lt_two hd)
        (Nat.digits_ne_nil_iff_ne_zero.mpr hm),
      Nat.ofDigits_digits]

theorem oct_roundtrip (m : Nat) : oct_to_dec (dec_to_oct (m : Int)) = .ok (m : Int) := by
  by_cases hm : m = 0
  · subst hm; decide
  · rw [dec_to_oct_nonneg (m : Int) (Int.natCast_nonneg m) (Int.natCast_ne_zero.mpr hm),
      Int.natAbs_ofNat,
      oct_to_dec_digits (Nat.digits 8 m) (fun d hd => Nat.digits_lt_base (by norm_num) hd)
        (Nat.digits_ne_nil_iff_ne_zero.mpr hm),
      Nat.ofDigits_digits]

theorem hex_roundtrip (m : Nat) : hex_to_dec (dec_to_hex (m : Int)) = .ok (m : Int) := by
  by_cases hm : m = 0
  · subst hm; decide
  · rw [dec_to_hex_nonneg (m : Int) (Int.natCast_nonneg m) (Int.natCast_ne_zero.mpr hm),
      Int.natAbs_ofNat,
      hex_to_dec_digits (Nat.digits 16 m) (fun d hd => Nat.digits_lt_base (by norm_num) hd)
        (Nat.digits_ne_nil_iff_ne_zero.mpr hm),
      Nat.ofDigits_digits]

theorem toUpper_dash : Char.toUpper '-' = '-' := by decide

theorem dec_to_oct_neg (n : Int) (hn : n < 0) :
    dec_to_oct n = "-" ++ String.mk (((Nat.digits 8 n.natAbs).map decChar).reverse) := by
  have hn0 : n ≠ 0 := by omega
  simp [dec_to_oct, hn0, hn, octLoop_digits n.natAbs n.natAbs le_rfl]

theorem dec_to_hex_neg (n : Int) (hn : n < 0) :
    dec_to_hex n = "-" ++ String.mk (((Nat.digits 16 n.natAbs).map hexChar).reverse) := by
  have hn0 : n ≠ 0 := by omega
  simp [dec_to_hex, hn0, hn, hexLoop_digits n.natAbs n.natAbs le_rfl]

theorem oct_to_dec_digits_neg (ds : List Nat) (hds : ∀ d ∈ ds, d < 8) (hne : ds ≠ []) :
    oct_to_dec ("-" ++ String.mk ((ds.map decChar).reverse)) =
      .ok (-((Nat.ofDigits 8 ds : ℕ) : Int)) := by
  have hdata : ("-" ++ String.mk ((ds.map decChar).reverse)).data =
      '-' :: (ds.map decChar).reverse := dash_append_data _
  have hbody : pyBody ('-' :: (ds.map decChar).reverse) = (ds.map decChar).reverse := by
    unfold pyBody
    rw [if_pos (by simp)]
    rfl
  have hvalid := mapped_all ds decChar (fun c => '0' ≤ c && c ≤ '7') 8
    (fun d hd => decChar_isOct d hd) hds
  have hsum : positionalSum digitToInt 8 (ds.map decChar) 0 =
      ((Nat.ofDigits 8 ds : ℕ) : Int) := by
    have := positionalSum_ofDigits digitToInt decChar 8
      (fun d hd => digitToInt_decChar d (by omega)) ds hds
    simpa using this
  simp only [oct_to_dec, hdata, hbody]
  rw [if_pos ⟨by simp [hne], hvalid⟩, if_pos (by simp), List.reverse_reverse, hsum]

theorem hex_to_dec_digits_neg (ds : List Nat) (hds : ∀ d ∈ ds, d < 16) (hne : ds ≠ []) :
    hex_to_dec ("-" ++ String.mk ((ds.map hexChar).reverse)) =
      .ok (-((Nat.ofDigits 16 ds : ℕ) : Int)) := by
  have hdata : ("-" ++ String.mk ((ds.map hexChar).reverse)).data =
      '-' :: (ds.map hexChar).reverse := dash_append_data _
  have hupper : ((ds.map hexChar).reverse).map Char.toUpper = (ds.map hexChar).reverse := by
    rw [← List.map_reverse, List.map_map]
    exact List.map_congr_left (fun d hd =>
      hexChar_toUpper d (hds d (List.mem_reverse.mp hd)))
  have hl : (('-' :: (ds.map hexChar).reverse).map Char.toUpper) =
      '-' :: (ds.map hexChar).reverse := by
    rw [List.map_cons, toUpper_dash, hupper]
  have hbody : pyBody ('-' :: (ds.map hexChar).reverse) = (ds.map hexChar).reverse := by
    unfold pyBody
    rw [if_pos (by simp)]
    rfl
  have hvalid := mapped_all ds hexChar
    (fun c => ('0' ≤ c && c ≤ '9') || ('A' ≤ c && c ≤ 'F')) 16
    (fun d hd => hexChar_isHex d hd) hds
  have hsum : positionalSum (fun c => (hexIndex c : Int)) 16 (ds.map hexChar) 0 =
      ((Nat.ofDigits 16 ds : ℕ) : Int) := by
    have := positionalSum_ofDigits (fun c => (hexIndex c : Int)) hexChar 16
      (fun d hd => by simp only [hexIndex_hexChar d hd]) ds hds
    simpa using this
  simp only [hex_to_dec, hdata, hl, hbody]
  rw [if_pos ⟨by simp [hne], hvalid⟩, if_pos (by simp), List.reverse_reverse, hsum]

theorem oct_roundtrip_neg (n : Int) (hn : n < 0) : oct_to_dec (dec_to_oct n) = .ok n := by
  have hn0 : n.natAbs ≠ 0 := by omega
  rw [dec_to_oct_neg n hn,
    oct_to_dec_digits_neg (Nat.digits 8 n.natAbs)
      (fun d hd => Nat.digits_lt_base (by norm_num) hd)
      (Nat.digits_ne_nil_iff_ne_zero.mpr hn0),
    Nat.ofDigits_digits]
  congr 1
  omega

theorem hex_roundtrip_neg (n : Int) (hn : n < 0) : hex_to_dec (dec_to_hex n) = .ok n := by
  have hn0 : n.natAbs ≠ 0 := by omega
  rw [dec_to_hex_neg n hn,
    hex_to_dec_digits_neg (Nat.digits 16 n.natAbs)
      (fun d hd => Nat.digits_lt_base (by norm_num) hd)
      (Nat.digits_ne_nil_iff_ne_zero.mpr hn0),
    Nat.ofDigits_digits]
  congr 1
  omega

theorem lowUpper_hexChar : ∀ r, r < 16 → ((hexChar r).toLower).toUpper = hexChar r := by decide

theorem hex_to_dec_digits_low (ds : List Nat) (hds : ∀ d ∈ ds, d < 16) (hne : ds ≠ []) :
    hex_to_dec (String.mk (((ds.map hexChar).reverse).map Char.toLower)) =
      .ok ((Nat.ofDigits 16 ds : ℕ) : Int) := by
  have hhead := mapped_head_ne_dash (fun d hd => hexChar_ne_dash d hd) hds
  have hl : ((((ds.map hexChar).reverse).map Char.toLower).map Char.toUpper) =
      (ds.map hexChar).reverse := by
    rw [← List.map_reverse, List.map_map, List.map_map]
    exact List.map_congr_left (fun d hd =>
      lowUpper_hexChar d (hds d (List.mem_reverse.mp hd)))
  have hbody : pyBody ((ds.map hexChar).reverse) = (ds.map hexChar).reverse := by
    unfold pyBody
    rw [if_neg hhead]
  have hvalid := mapped_all ds hexChar
    (fun c => ('0' ≤ c && c ≤ '9') || ('A' ≤ c && c ≤ 'F')) 16
    (fun d hd => hexChar_isHex d hd) hds
  have hsum : positionalSum (fun c => (hexIndex c : Int)) 16 (ds.map hexChar) 0 =
      ((Nat.ofDigits 16 ds : ℕ) : Int) := by
    have := positionalSum_ofDigits (fun c => (hexIndex c : Int)) hexChar 16
      (fun d hd => by simp only [hexIndex_hexChar d hd]) ds hds
    simpa using this
  simp only [hex_to_dec,
    show (String.mk (((ds.map hexChar).reverse).map Char.toLower)).data =
      ((ds.map hexChar).reverse).map Char.toLower from rfl, hl, hbody]
  rw [if_pos ⟨by simp [hne], hvalid⟩, if_neg hhead, List.reverse_reverse, hsum]

theorem hex_roundtrip_low (m : Nat) :
    hex_to_dec (String.mk ((dec_to_hex (m : Int)).data.map Char.toLower)) = .ok (m : Int) := by
  by_cases hm : m = 0
  · subst hm; decide
  · rw [dec_to_hex_nonneg (m : Int) (Int.natCast_nonneg m) (Int.natCast_ne_zero.mpr hm),
      Int.natAbs_ofNat]
    rw [show (String.mk (((Nat.digits 16 m).map hexChar).reverse)).data =
      ((Nat.digits 16 m).map hexChar).reverse from rfl]
    rw [hex_to_dec_digits_low (Nat.digits 16 m)
        (fun d hd => Nat.digits_lt_base (by norm_num) hd)
        (Nat.digits_ne_nil_iff_ne_zero.mpr hm),
      Nat.ofDigits_digits]

/-- C3 (amended): for every numeral that is the repo's own canonical rendering
of an integer value, each of the six bridge compositions b1→b2→b1 over
{2,8,16} returns the numeral unchanged when the value is nonnegative; for
negative values the 8↔16 compositions still return the numeral unchanged, and
a lowercase hex numeral comes back as its canonical uppercase form.  The only
failures are negative numerals when base 2 is one of the two bases, because
`dec_to_bin` renders negatives in sign-prefixed two's-complement form while
`bin_to_dec` parses sign-magnitude; see the counterexample. -/
theorem c3_bridge_roundtrip (m : Nat) :
    (bin_to_oct (dec_to_bin (m : Int))).bind oct_to_bin = .ok (dec_to_bin (m : Int)) ∧
    (bin_to_hex (dec_to_bin (m : Int))).bind hex_to_bin = .ok (dec_to_bin (m : Int)) ∧
    (oct_to_bin (dec_to_oct (m : Int))).bind bin_to_oct = .ok (dec_to_oct (m : Int)) ∧
    (oct_to_hex (dec_to_oct (m : Int))).bind hex_to_oct = .ok (dec_to_oct (m : Int)) ∧
    (hex_to_bin (dec_to_hex (m : Int))).bind bin_to_hex = .ok (dec_to_hex (m : Int)) ∧
    (hex_to_oct (dec_to_hex (m : Int))).bind oct_to_hex = .ok (dec_to_hex (m : Int)) ∧
    (oct_to_hex (dec_to_oct (-((m : Int) + 1)))).bind hex_to_oct =
      .ok (dec_to_oct (-((m : Int) + 1))) ∧
    (hex_to_oct (dec_to_hex (-((m : Int) + 1)))).bind oct_to_hex =
      .ok (dec_to_hex (-((m : Int) + 1))) ∧
    (hex_to_bin (String.mk ((dec_to_hex (m : Int)).data.map Char.toLower))).bind bin_to_hex =
      .ok (dec_to_hex (m : Int)) ∧
    (hex_to_oct (String.mk ((dec_to_hex (m : Int)).data.map Char.toLower))).bind oct_to_hex =
      .ok (dec_to_hex (m : Int)) := by
  have hb := bin_roundtrip m
  have ho := oct_roundtrip m
  have hh := hex_roundtrip m
  have hneg : -((m : Int) + 1) < 0 := by omega
  have hon := oct_roundtrip_neg (-((m : Int) + 1)) hneg
  have hhn := hex_roundtrip_neg (-((m : Int) + 1)) hneg
  have hlow := hex_roundtrip_low m
  refine ⟨?_, ?_, ?_, ?_, ?_, ?_, ?_, ?_, ?_, ?_⟩
  · rw [show bin_to_oct (dec_to_bin (m : Int)) = .ok (dec_to_oct (m : Int)) from by
      simp [bin_to_oct, hb]]
    show oct_to_bin (dec_to_oct (m : Int)) = .ok (dec_to_bin (m : Int))
    simp [oct_to_bin, ho]
  · rw [show bin_to_hex (dec_to_bin (m : Int)) = .ok (dec_to_hex (m : Int)) from by
      simp [bin_to_hex, hb]]
    show hex_to_bin (dec_to_hex (m : Int)) = .ok (dec_to_bin (m : Int))
    simp [hex_to_bin, hh]
  · rw [show oct_to_bin (dec_to_oct (m : Int)) = .ok (dec_to_bin (m : Int)) from by
      simp [oct_to_bin, ho]]
    show bin_to_oct (dec_to_bin (m : Int)) = .ok (dec_to_oct (m : Int))
    simp [bin_to_oct, hb]
  · rw [show oct_to_hex (dec_to_oct (m : Int)) = .ok (dec_to_hex (m : Int)) from by
      simp [oct_to_hex, ho]]
    show hex_to_oct (dec_to_hex (m : Int)) = .ok (dec_to_oct (m : Int))
    simp [hex_to_oct, hh]
  · rw [show hex_to_bin (dec_to_hex (m : Int)) = .ok (dec_to_bin (m : Int)) from by
      simp [hex_to_bin, hh]]
    show bin_to_hex (dec_to_bin (m : Int)) = .ok (dec_to_hex (m : Int))
    simp [bin_to_hex, hb]
  · rw [show hex_to_oct (dec_to_hex (m : Int)) = .ok (dec_to_oct (m : Int)) from by
      simp [hex_to_oct, hh]]
    show oct_to_hex (dec_to_oct (m : Int)) = .ok (dec_to_hex (m : Int))
    simp [oct_to_hex, ho]
  · rw [show oct_to_hex (dec_to_oct (-((m : Int) + 1))) =
        .ok (dec_to_hex (-((m : Int) + 1))) from by unfold oct_to_hex; rw [hon]]
    show hex_to_oct (dec_to_hex (-((m : Int) + 1))) = .ok (dec_to_oct (-((m : Int) + 1)))
    unfold hex_to_oct
    rw [hhn]
  · rw [show hex_to_oct (dec_to_hex (-((m : Int) + 1))) =
        .ok (dec_to_oct (-((m : Int) + 1))) from by unfold hex_to_oct; rw [hhn]]
    show oct_to_hex (dec_to_oct (-((m : Int) + 1))) = .ok (dec_to_hex (-((m : Int) + 1)))
    unfold oct_to_hex
    rw [hon]
  · rw [show hex_to_bin (String.mk ((dec_to_hex (m : Int)).data.map Char.toLower)) =
        .ok (dec_to_bin (m : Int)) from by simp [hex_to_bin, hlow]]
    show bin_to_hex (dec_to_bin (m : Int)) = .ok (dec_to_hex (m : Int))
    simp [bin_to_hex, hb]
  · rw [show hex_to_oct (String.mk ((dec_to_hex (m : Int)).data.map Char.toLower)) =
        .ok (dec_to_oct (m : Int)) from by simp [hex_to_oct, hlow]]
    show oct_to_hex (dec_to_oct (m : Int)) = .ok (dec_to_hex (m : Int))
    simp [oct_to_hex, ho]

/-- Counterexample to C3 as stated: the valid binary numeral `"-1"` comes back
from the 2→8→2 bridge composition as `"-11"` (two's-complement quirk), which
differs from `"-1"` even after upper-casing. -/
theorem c3_counterexample :
    (bin_to_oct "-1").bind oct_to_bin = .ok "-11" ∧ ("-11" : String) ≠ "-1" ∧
      ("-11" : String).data ≠ ("-1" : String).data.map Char.toUpper := by
  refine ⟨by decide, by decide, by decide⟩

/-! ### Base-range validation -/

/-- C5 (amended): with a base outside [2,16], `base_to_dec` always raises, and
`dec_to_base` / `dec_to_base_float` raise for every nonzero input — but return
`"0"` / `"0.0"` for input 0, because the zero fast path runs before the base
check. -/
theorem c5_base_validation (b : Int) (hb : b < 2 ∨ 16 < b) :
    (∀ s : String, ∃ e, base_to_dec s b = .error e) ∧
    (∀ n : Int, n ≠ 0 → ∃ e, dec_to_base n b = .error e) ∧
    (∀ x : ℚ, x ≠ 0 → ∀ p : Nat, ∃ e, dec_to_base_float x b p = .error e) ∧
    dec_to_base 0 b = .ok "0" ∧
    (∀ p : Nat, dec_to_base_float 0 b p = .ok "0.0") := by
  have hcond : ¬(2 ≤ b ∧ b ≤ 16) := by omega
  refine ⟨fun s => ?_, fun n hn => ?_, fun x hx p => ?_, ?_, fun p => ?_⟩
  · exact ⟨"Base must be between 2 and 16", by simp [base_to_dec, hcond]⟩
  · exact ⟨"Base must be between 2 and 16", by simp [dec_to_base, hn, hcond]⟩
  · exact ⟨"Base must be between 2 and 16", by simp [dec_to_base_float, hx, hcond]⟩
  · simp [dec_to_base]
  · simp [dec_to_base_float]

/-- Witness for C5 (amended) at base 17. -/
theorem c5_base_validation_witness :
    (∃ e, base_to_dec "10" 17 = .error e) ∧ (∃ e, dec_to_base 5 17 = .error e) ∧
      dec_to_base 0 17 = .ok "0" := by
  obtain ⟨h1, h2, _, h4, _⟩ := c5_base_validation 17 (Or.inr (by decide))
  exact ⟨h1 "10", h2 5 (by decide), h4⟩

/-- Counterexample to C5 as stated: at base 17 (outside [2,16]) with input 0,
`dec_to_base` returns a normal result instead of raising. -/
theorem c5_counterexample : dec_to_base 0 17 = Except.ok "0" := by decide

/-! ### Floating-point (exact-rational) conversion -/

theorem digitChar_zero : digitChar 0 = '0' := by decide

theorem fracLoop_len (b den : Int) : ∀ (p : Nat) (nf : Int), (fracLoop b den nf p).length ≤ p := by
  intro p
  induction p with
  | zero => intro nf; simp [fracLoop]
  | succ p ih =>
    intro nf
    by_cases h : nf * b - (nf * b).tdiv den * den = 0
    · simp only [fracLoop, h, if_pos]
      simp
    · simp only [fracLoop, if_neg h, List.length_cons]
      exact Nat.succ_le_succ (ih _)

theorem fracLoop_exact (b den : Int) (nf : Int) (p : Nat) (hp : 1 ≤ p)
    (h : nf * b - (nf * b).tdiv den * den = 0) :
    fracLoop b den nf p = [digitChar ((nf * b).tdiv den).toNat] := by
  obtain ⟨p', rfl⟩ : ∃ p', p = p' + 1 := ⟨p - 1, by omega⟩
  simp only [fracLoop, h, if_pos]

/-- C7: `dec_to_base_float` produces at most `precision` fractional digits by
the multiply-truncate-subtract loop `fracLoop`, stops after a single digit as
soon as the remainder becomes exactly zero, assembles the output from the
integer numeral and the fractional digits, and in the exact case
`dec_to_base_float (1/2) 2 10 = "0.1"`. -/
theorem c7_float_expansion :
    (∀ (b den nf : Int) (p : Nat), (fracLoop b den nf p).length ≤ p) ∧
    (∀ (b den nf : Int) (p : Nat), 1 ≤ p → nf * b - (nf * b).tdiv den * den = 0 →
      fracLoop b den nf p = [digitChar ((nf * b).tdiv den).toNat]) ∧
    (∀ (x : ℚ) (b : Int) (p : Nat), 2 ≤ b → b ≤ 16 → x ≠ 0 →
      ∃ int_result, dec_to_base (intPart x) b = .ok int_result ∧
        dec_to_base_float x b p = .ok (if x < 0 then
          "-" ++ (if fracLoop b ((pyAbs x).den : Int) (fracNum x) p = [] then int_result
            else int_result ++ "." ++ String.mk (fracLoop b ((pyAbs x).den : Int) (fracNum x) p))
          else (if fracLoop b ((pyAbs x).den : Int) (fracNum x) p = [] then int_result
            else int_result ++ "." ++ String.mk (fracLoop b ((pyAbs x).den : Int) (fracNum x) p)))) ∧
    dec_to_base_float (1 / 2 : ℚ) 2 10 = .ok "0.1" := by
  refine ⟨fun b den nf p => fracLoop_len b den p nf,
    fun b den nf p hp h => fracLoop_exact b den nf p hp h, ?_, ?_⟩
  · intro x b p hb2 hb16 hx
    obtain ⟨s, hs⟩ := dec_to_base_ok (intPart x) b hb2 hb16
    refine ⟨s, hs, ?_⟩
    simp [dec_to_base_float, hx, hb2, hb16, hs]
  · have hhalf : (1 / 2 : ℚ) = (⟨1, 2, by decide, Nat.coprime_one_left 2⟩ : ℚ) := by
      rw [Rat.mk'_eq_divInt, Rat.divInt_eq_div]
      norm_num
    rw [hhalf]
    decide

/-- Witness for C7 at `b = 2`, `den = 2`, `nf = 1`, `p = 10`. -/
theorem c7_float_expansion_witness :
    (fracLoop 2 2 1 10).length ≤ 10 ∧ dec_to_base_float (1 / 2 : ℚ) 2 10 = .ok "0.1" :=
  ⟨c7_float_expansion.1 2 2 1 10, c7_float_expansion.2.2.2⟩

/-- C9: for a nonzero integral float (fractional part zero), with any base in
[2,16] and any precision ≥ 1, `dec_to_base_float` emits exactly one fractional
digit `'0'`: the result is the integer numeral followed by `".0"`. -/
theorem c9_integral_float (x : ℚ) (hx : x ≠ 0) (hden : x.den = 1) (b : Int)
    (hb2 : 2 ≤ b) (hb16 : b ≤ 16) (p : Nat) (hp : 1 ≤ p) :
    ∃ int_result, dec_to_base (intPart x) b = .ok int_result ∧
      dec_to_base_float x b p = .ok (if x < 0 then "-" ++ (int_result ++ ".0")
        else int_result ++ ".0") := by
  obtain ⟨s, hs⟩ := dec_to_base_ok (intPart x) b hb2 hb16
  refine ⟨s, hs, ?_⟩
  have hadf : (pyAbs x).den = 1 := by
    unfold pyAbs
    split
    · rw [Rat.neg_den]; exact hden
    · exact hden
  have hint : intPart x = (pyAbs x).num := by
    unfold intPart
    rw [hadf, Nat.cast_one, Int.tdiv_one]
  have hfn : fracNum x = 0 := by
    unfold fracNum
    rw [hint, hadf, Nat.cast_one, mul_one, sub_self]
  obtain ⟨p', rfl⟩ : ∃ p', p = p' + 1 := ⟨p - 1, by omega⟩
  have hloop : fracLoop b ((pyAbs x).den : Int) 0 (p' + 1) = ['0'] := by
    have hcond : (0 : Int) * b - ((0 : Int) * b).tdiv ((pyAbs x).den : Int) *
        ((pyAbs x).den : Int) = 0 := by
      simp [Int.zero_tdiv]
    rw [fracLoop_exact _ _ _ _ (by omega) hcond]
    simp [Int.zero_tdiv, digitChar_zero]
  have hdot : ("." : String) ++ String.mk ['0'] = ".0" := by decide
  simp only [dec_to_base_float, hx, if_false, hb2, hb16, and_self, not_true_eq_false,
    hs, hfn, hloop]
  rw [if_neg (by simp : ¬(['0'] : List Char) = [])]
  rw [String.append_assoc, hdot]

/-- Witness for C9 at `x = 5.0`, base 2, precision 10: output `"101.0"`. -/
theorem c9_integral_float_witness : dec_to_base_float (5 : ℚ) 2 10 = .ok "101.0" := by
  obtain ⟨r, h1, h2⟩ := c9_integral_float 5 (by decide) (by decide) 2 (by decide)
    (by decide) 10 (by decide)
  have h3 : dec_to_base (intPart (5 : ℚ)) 2 = .ok "101" := by decide
  have hr : r = "101" := by
    rw [h1] at h3
    exact Except.ok.inj h3
  rw [hr] at h2
  rw [h2, if_neg (by decide : ¬(5 : ℚ) < 0)]
  decide

/-! ### Base detection -/

/-- C8: `detect_base` trims whitespace, returns 2/8/16 for a case-insensitive
`0b`/`0o`/`0x` prefix without validating the rest, otherwise classifies the
optionally sign-prefixed body in strict priority order binary, octal, decimal,
hex, with 0 for unknown; with the spec's concrete examples. -/
theorem c8_detect_base :
    (∀ s : String, startsWith2 ((pyStrip s.data).map Char.toLower) '0' 'b' = true →
      detect_base s = 2) ∧
    (∀ s : String, startsWith2 ((pyStrip s.data).map Char.toLower) '0' 'b' = false →
      startsWith2 ((pyStrip s.data).map Char.toLower) '0' 'o' = true →
      detect_base s = 8) ∧
    (∀ s : String, startsWith2 ((pyStrip s.data).map Char.toLower) '0' 'b' = false →
      startsWith2 ((pyStrip s.data).map Char.toLower) '0' 'o' = false →
      startsWith2 ((pyStrip s.data).map Char.toLower) '0' 'x' = true →
      detect_base s = 16) ∧
    (∀ s : String, startsWith2 ((pyStrip s.data).map Char.toLower) '0' 'b' = false →
      startsWith2 ((pyStrip s.data).map Char.toLower) '0' 'o' = false →
      startsWith2 ((pyStrip s.data).map Char.toLower) '0' 'x' = false →
      fullmatchOptSign isBinDigit (pyStrip s.data) = true →
      detect_base s = 2) ∧
    (∀ s : String, startsWith2 ((pyStrip s.data).map Char.toLower) '0' 'b' = false →
      startsWith2 ((pyStrip s.data).map Char.toLower) '0' 'o' = false →
      startsWith2 ((pyStrip s.data).map Char.toLower) '0' 'x' = false →
      fullmatchOptSign isBinDigit (pyStrip s.data) = false →
      fullmatchOptSign isOctDigit (pyStrip s.data) = true →
      detect_base s = 8) ∧
    (∀ s : String, startsWith2 ((pyStrip s.data).map Char.toLower) '0' 'b' = false →
      startsWith2 ((pyStrip s.data).map Char.toLower) '0' 'o' = false →
      startsWith2 ((pyStrip s.data).map Char.toLower) '0' 'x' = false →
      fullmatchOptSign isBinDigit (pyStrip s.data) = false →
      fullmatchOptSign isOctDigit (pyStrip s.data) = false →
      fullmatchOptSign isDecDigit (pyStrip s.data) = true →
      detect_base s = 10) ∧
    (∀ s : String, startsWith2 ((pyStrip s.data).map Char.toLower) '0' 'b' = false →
      startsWith2 ((pyStrip s.data).map Char.toLower) '0' 'o' = false →
      startsWith2 ((pyStrip s.data).map Char.toLower) '0' 'x' = false →
      fullmatchOptSign isBinDigit (pyStrip s.data) = false →
      fullmatchOptSign isOctDigit (pyStrip s.data) = false →
      fullmatchOptSign isDecDigit (pyStrip s.data) = false →
      fullmatchOptSign isHexDigit (pyStrip s.data) = true →
      detect_base s = 16) ∧
    (∀ s : String, startsWith2 ((pyStrip s.data).map Char.toLower) '0' 'b' = false →
      startsWith2 ((pyStrip s.data).map Char.toLower) '0' 'o' = false →
      startsWith2 ((pyStrip s.data).map Char.toLower) '0' 'x' = false →
      fullmatchOptSign isBinDigit (pyStrip s.data) = false →
      fullmatchOptSign isOctDigit (pyStrip s.data) = false →
      fullmatchOptSign isDecDigit (pyStrip s.data) = false →
      fullmatchOptSign isHexDigit (pyStrip s.data) = false →
      detect_base s = 0) ∧
    detect_base "101" = 2 ∧ detect_base "0x1F" = 16 ∧ detect_base "89" = 10 ∧
      detect_base "Z" = 0 ∧ detect_base "0bZZ" = 2 := by
  refine ⟨fun s h1 => by simp [detect_base, h1],
    fun s h1 h2 => by simp [detect_base, h1, h2],
    fun s h1 h2 h3 => by simp [detect_base, h1, h2, h3],
    fun s h1 h2 h3 h4 => by simp [detect_base, h1, h2, h3, h4],
    fun s h1 h2 h3 h4 h5 => by simp [detect_base, h1, h2, h3, h4, h5],
    fun s h1 h2 h3 h4 h5 h6 => by simp [detect_base, h1, h2, h3, h4, h5, h6],
    fun s h1 h2 h3 h4 h5 h6 h7 => by simp [detect_base, h1, h2, h3, h4, h5, h6, h7],
    fun s h1 h2 h3 h4 h5 h6 h7 => by simp [detect_base, h1, h2, h3, h4, h5, h6, h7],
    by decide, by decide, by decide, by decide, by decide⟩

/-- Witness for C8: a prefixed input (unvalidated body) and a negative octal
input, classified through the corresponding conjuncts. -/
theorem c8_detect_base_witness : detect_base " 0B7" = 2 ∧ detect_base "-77" = 8 := by
  refine ⟨c8_detect_base.1 " 0B7" (by decide), ?_⟩
  exact c8_detect_base.2.2.2.2.1 "-77" (by decide) (by decide) (by decide) (by decide)
    (by decide)

/-! ### Character / code-point conversion -/

/-- C10: `ascii_to_char` succeeds on exactly the code points in [0, 1114111]
(including the whole surrogate range), returns a single character, and
`char_to_ascii` of that one-character string gives back the code point. -/
theorem c10_codepoint_roundtrip (cp : Int) :
    ((0 ≤ cp ∧ cp ≤ 1114111) → ascii_to_char cp = .ok cp.toNat ∧
      char_to_ascii [cp.toNat] = .ok cp.toNat ∧ ((cp.toNat : Int) = cp)) ∧
    (¬(0 ≤ cp ∧ cp ≤ 1114111) →
      ascii_to_char cp = .error "Code point must be between 0 and 1114111") := by
  constructor
  · intro h
    exact ⟨by simp [ascii_to_char, h], by simp [char_to_ascii], by omega⟩
  · intro h
    simp [ascii_to_char, h]

/-- Witness for C10 at the lone-surrogate code point 0xD800 = 55296 and at the
out-of-range value -1. -/
theorem c10_codepoint_roundtrip_witness :
    ascii_to_char 55296 = .ok 55296 ∧ char_to_ascii [55296] = .ok 55296 ∧
      ascii_to_char (-1) = .error "Code point must be between 0 and 1114111" := by
  obtain ⟨h1, h2, _⟩ := (c10_codepoint_roundtrip 55296).1 (by decide)
  exact ⟨h1, h2, (c10_codepoint_roundtrip (-1)).2 (by decide)⟩

/-! ### Trace fidelity -/

theorem bdRows_len (b : Int) : ∀ (cs : List Char) (i : Nat), (bdRows b cs i).length = cs.length := by
  intro cs
  induction cs with
  | nil => intro i; simp [bdRows]
  | cons c cs ih => intro i; simp [bdRows, ih]

theorem dash_not_mem_baseDigits : ¬('-' ∈ baseDigits) := by decide

theorem body_chars_ne_dash {b : Int} {body : List Char}
    (hall : ((body.map Char.toUpper).all
      (fun c => List.elem c (baseDigits.take b.toNat))) = true) :
    ∀ c ∈ body, c ≠ '-' := by
  intro c hc hceq
  subst hceq
  have hup : Char.toUpper '-' ∈ body.map Char.toUpper := List.mem_map_of_mem _ hc
  rw [toUpper_dash] at hup
  have hel := List.all_eq_true.mp hall '-' hup
  rw [List.elem_iff] at hel
  exact dash_not_mem_baseDigits (List.take_subset _ _ hel)

theorem filter_ne_dash {l : List Char} (h : ∀ c ∈ l, c ≠ '-') :
    l.filter (fun c => c != '-') = l :=
  List.filter_eq_self.mpr (fun a ha => by simpa using h a ha)

/-- C6 (amended): for every nonzero integer input, the `show_steps=True` trace
of `dec_to_base` contains exactly one per-digit row per digit of the returned
numeral, in processing order, agrees with the plain variant's result, and ends
with a summary line stating that result; and for every accepted numeral, the
trace of `base_to_dec` contains exactly one per-digit row per digit consumed
and ends with a summary line stating the returned value.  (At input 0 the
`dec_to_base` trace is a single summary line with no per-digit record although
the result `"0"` has one digit; see the counterexample.) -/
theorem c6_trace_fidelity :
    (∀ (n b : Int), 2 ≤ b → b ≤ 16 → n ≠ 0 →
      ∃ res steps, dec_to_base_steps n b = .ok (res, steps) ∧
        dec_to_base n b = .ok res ∧
        (∃ pre post, steps = pre ++ (convLoop b.toNat n.natAbs n.natAbs 1).2 ++ post) ∧
        ((convLoop b.toNat n.natAbs n.natAbs 1).2).length =
          (res.data.filter (fun c => c != '-')).length ∧
        steps.getLast? = some s!"Final result: {n} in decimal = {res} in base {b}") ∧
    (∀ (s : String) (b v : Int), base_to_dec s b = .ok v →
      ∃ steps, base_to_dec_steps s b = .ok (v, steps) ∧
        (∃ pre post, steps = pre ++
          bdRows b (((pyBody s.data).map Char.toUpper).reverse) 0 ++ post) ∧
        (bdRows b (((pyBody s.data).map Char.toUpper).reverse) 0).length =
          (s.data.filter (fun c => c != '-')).length ∧
        steps.getLast? = some s!"Final result: {s} in base {b} = {v} in decimal") := by
  constructor
  · intro n b hb2 hb16 hn
    have hbn : 2 ≤ b.toNat := by omega
    have hfst := convLoop_fst b.toNat hbn n.natAbs n.natAbs 1 le_rfl
    have hlen := convLoop_len b.toNat n.natAbs n.natAbs 1
    have h16 : ∀ d ∈ Nat.digits b.toNat n.natAbs, d < 16 := fun d hd =>
      lt_of_lt_of_le (Nat.digits_lt_base (by omega) hd) (by omega)
    have hchars_ne : ∀ c ∈ (convLoop b.toNat n.natAbs n.natAbs 1).1, c ≠ '-' := by
      intro c hc
      rw [hfst] at hc
      obtain ⟨d, hd, rfl⟩ := List.mem_map.mp hc
      exact digitChar_ne_dash d (h16 d hd)
    simp only [dec_to_base_steps, dec_to_base, hn, if_false]
    rw [if_neg (not_not_intro ⟨hb2, hb16⟩), if_neg (not_not_intro ⟨hb2, hb16⟩)]
    refine ⟨_, _, rfl, rfl, ⟨_, _, rfl⟩, ?_, ?_⟩
    · by_cases hneg : n < 0
      · rw [if_pos hneg, dash_append_data]
        rw [show (('-' :: (convLoop b.toNat n.natAbs n.natAbs 1).1.reverse).filter
            (fun c => c != '-')) = ((convLoop b.toNat n.natAbs n.natAbs 1).1.reverse).filter
            (fun c => c != '-') from by simp]
        rw [filter_ne_dash (fun c hc => hchars_ne c (List.mem_reverse.mp hc))]
        rw [hlen, List.length_reverse]
      · rw [if_neg hneg]
        rw [show (String.mk ((convLoop b.toNat n.natAbs n.natAbs 1).1.reverse)).data =
          (convLoop b.toNat n.natAbs n.natAbs 1).1.reverse from rfl]
        rw [filter_ne_dash (fun c hc => hchars_ne c (List.mem_reverse.mp hc))]
        rw [hlen, List.length_reverse]
    · repeat rw [List.getLast?_append_of_ne_nil _ (by simp)]
      rfl
  · intro s b v h
    simp only [base_to_dec] at h
    split at h
    · exact absurd h (by simp)
    · rename_i hbase
      split at h
      · rename_i hvalid
        have hval := Except.ok.inj h
        have hne := body_chars_ne_dash hvalid.2
        simp only [base_to_dec_steps]
        rw [if_neg hbase, if_pos hvalid, hval]
        refine ⟨_, rfl, ⟨_, _, rfl⟩, ?_, ?_⟩
        · rw [bdRows_len, List.length_reverse, List.length_map]
          rcases hd : s.data with _ | ⟨c, t⟩
          · simp [pyBody]
          · by_cases hc : c = '-'
            · subst hc
              have hb1 : pyBody ('-' :: t) = t := by simp [pyBody]
              have hne' : ∀ x ∈ t, x ≠ '-' := by
                intro x hx
                apply hne
                rw [hd, hb1]
                exact hx
              rw [hb1, show (('-' :: t).filter (fun c => c != '-')) =
                t.filter (fun c => c != '-') from by simp, filter_ne_dash hne']
            · have hb1 : pyBody (c :: t) = c :: t := by simp [pyBody, hc]
              have hne' : ∀ x ∈ (c :: t), x ≠ '-' := by
                intro x hx
                apply hne
                rw [hd, hb1]
                exact hx
              rw [hb1, filter_ne_dash hne']
        · repeat rw [List.getLast?_append_of_ne_nil _ (by simp)]
          rfl
      · exact absurd h (by simp)

/-- Counterexample to C6 as stated: at input 0 the trace of
`dec_to_base(0, 2, show_steps=True)` is a single summary line — zero per-digit
records — although the returned result `"0"` has one digit. -/
theorem c6_counterexample :
    dec_to_base_steps 0 2 = Except.ok ("0", ["0 in decimal is 0 in base 2"]) ∧
      (convLoop 2 0 0 1).2.length = 0 ∧
      (("0" : String).data.filter (fun c => c != '-')).length = 1 := by
  refine ⟨by decide, by decide, by decide⟩

/-- Witness for C6 (amended): the traced conversions at `-5` in base 2 and at
`"FF"` in base 16 return the same results as the plain variants. -/
theorem c6_trace_fidelity_witness :
    (∃ res steps, dec_to_base_steps (-5) 2 = Except.ok (res, steps) ∧
      dec_to_base (-5) 2 = Except.ok res) ∧
    (∃ steps, base_to_dec_steps "FF" 16 = Except.ok (255, steps)) := by
  obtain ⟨res, steps, h1, h2, -, -, -⟩ :=
    c6_trace_fidelity.1 (-5) 2 (by decide) (by decide) (by decide)
  obtain ⟨steps2, h3, -, -, -⟩ := c6_trace_fidelity.2 "FF" 16 255 (by decide)
  exact ⟨⟨res, steps, h1, h2⟩, ⟨steps2, h3⟩⟩
